import Mathlib

/-!
Verification development for the dociq document-analysis backend.

The Python sources under verification are `risk_analyzer.py`, `rewrite_engine.py`,
`summary_engine.py` and the orchestration endpoint `analyze_text` in `main.py`.
Strings are modelled as `List Char` (Python strings are sequences of code points).
Modelling notes, stated once here:

* `str.lower` is modelled per character and concatenated: U+0130 lowers to
  the two code points U+0069 U+0307, the single length-changing case of
  `str.lower` in all of Unicode, so the lowered text can be longer than the
  input exactly as in Python; every other character is modelled by
  `Char.toLower`, exact on ASCII and hence on every pattern literal of the
  catalog (Python additionally lowers some non-ASCII letters one-to-one, a
  length-preserving difference immaterial to the claims below).
* the regular expressions occurring in the source use only alternation of
  literal phrases in which `.*` may separate literal segments; a pattern is
  therefore embedded as a list of branches, each branch a list of literal
  segments understood to be separated by greedy `.*` (which does not cross a
  newline).  Scanning is leftmost, branches are tried in order, matches are
  non-overlapping, exactly as `re.finditer` behaves on such patterns.
* `\s` of `re` and the character class stripped by `str.strip` are modelled by
  the six ASCII whitespace characters; `\d` by the ASCII digits.
* the external generative model (Gemini) behind the rewrite and summary engines
  is modelled as an optional function from prompt to `Except`, `none` standing
  for an unconfigured client and `Except.error` for a call that raises.
-/

/-- Convert a string literal to the `List Char` representation used throughout. -/
def chars (s : String) : List Char := s.data

/-- Whitespace recognised by the model of `str.strip` and of the regex class `\s`. -/
def pyIsSpace (c : Char) : Bool :=
  c == ' ' || c == '\t' || c == '\n' || c == '\r' || c == '\x0b' || c == '\x0c'

/-- Lowercasing of one character under `str.lower`.  Python maps U+0130 to the
two code points U+0069 U+0307, the only character whose lowercasing changes
the length; every other character is modelled by `Char.toLower`. -/
def pyCharLower (c : Char) : List Char :=
  if c = 'İ' then ['i', '\u0307'] else [c.toLower]

/-- Model of `str.lower`: concatenate the per-character lowercasings.  The
result can be longer than the input, exactly as in Python. -/
def pyLower (l : List Char) : List Char := l.flatMap pyCharLower

/-- Model of `str.rstrip` (no arguments): drop trailing whitespace. -/
def pyStripR (l : List Char) : List Char := (l.reverse.dropWhile pyIsSpace).reverse

/-- Model of `str.strip` (no arguments): drop leading and trailing whitespace. -/
def pyStrip (l : List Char) : List Char := pyStripR (l.dropWhile pyIsSpace)

/-- Model of the Python substring test `needle in haystack`. -/
def containsSub (needle : List Char) : List Char → Bool
  | [] => needle.isEmpty
  | c :: rest => needle.isPrefixOf (c :: rest) || containsSub needle rest

/-!  Regex engine for patterns of the shape `lit (.* lit)*` under alternation. -/

/-- Backtracking loop for one greedy `.*` in front of the literal `seg`: try to
let `.*` consume `k` characters, then `seg`, then the continuation `cont` for
the remaining segments; on failure retry with `k - 1`.  Starting from the
largest admissible `k` this reproduces the greedy leftmost semantics of `re`. -/
def tryWidths (seg : List Char) (cont : List Char → Option Nat) (s : List Char) :
    Nat → Option Nat
  | 0 =>
    if seg.isPrefixOf s then
      match cont (List.drop seg.length s) with
      | some n => some (seg.length + n)
      | none => none
    else none
  | k + 1 =>
    if seg.isPrefixOf (List.drop (k + 1) s) then
      match cont (List.drop (k + 1 + seg.length) s) with
      | some n => some (k + 1 + seg.length + n)
      | none => tryWidths seg cont s k
    else tryWidths seg cont s k

/-- Match the segment list of a branch after its first literal, each segment
preceded by a greedy `.*` that cannot cross a newline.  Returns the number of
characters consumed from `s`. -/
def matchDS : List (List Char) → List Char → Option Nat
  | [], _ => some 0
  | seg :: rest, s =>
      tryWidths seg (matchDS rest) s ((s.takeWhile (fun c => c != '\n')).length)

/-- Match one branch (a literal followed by `.*`-separated literals) anchored at
the start of `s`. -/
def matchBranchAt (br : List (List Char)) (s : List Char) : Option Nat :=
  match br with
  | [] => some 0
  | seg :: rest =>
    if seg.isPrefixOf s then
      match matchDS rest (List.drop seg.length s) with
      | some n => some (seg.length + n)
      | none => none
    else none

/-- Match an alternation at the start of `s`: branches are tried in order, the
first branch that matches wins, exactly as `re` alternation behaves. -/
def matchPatAt : List (List (List Char)) → List Char → Option Nat
  | [], _ => none
  | br :: brs, s =>
    match matchBranchAt br s with
    | some n => some n
    | none => matchPatAt brs s

/-- Scanner of `re.finditer`: walk the positions of `tl` from index `i`, emit
the non-overlapping matches as half-open index pairs and resume after each
match.  `fuel` bounds the recursion; the wrapper supplies enough fuel for the
scan to complete.  The catalog patterns never match the empty string, so the
defensive skip on a zero-width match never fires for them. -/
def finditerFrom (pat : List (List (List Char))) (tl : List Char) :
    Nat → Nat → List (Nat × Nat)
  | 0, _ => []
  | fuel + 1, i =>
    if i < tl.length then
      match matchPatAt pat (List.drop i tl) with
      | some n =>
        if n = 0 then finditerFrom pat tl fuel (i + 1)
        else (i, i + n) :: finditerFrom pat tl fuel (i + n)
      | none => finditerFrom pat tl fuel (i + 1)
    else []

/-- Model of `re.finditer(pattern, tl)` returning match spans. -/
def finditer (pat : List (List (List Char))) (tl : List Char) : List (Nat × Nat) :=
  finditerFrom pat tl (tl.length + 1) 0

/-- Worker for the sentence splitter: a sentence boundary is a `.`, `!` or `?`
immediately followed by at least one whitespace character; the boundary match
consumes the punctuation character and the greedy whitespace run, as
`re.split` does with the source pattern.  `fuel` bounds the recursion. -/
def splitSentencesAux : Nat → List Char → List Char → List (List Char)
  | _, acc, [] => [acc.reverse]
  | 0, acc, rest => [acc.reverse ++ rest]
  | fuel + 1, acc, c :: rest =>
    if (c == '.' || c == '!' || c == '?') &&
        (match rest with | d :: _ => pyIsSpace d | [] => false) then
      acc.reverse :: splitSentencesAux fuel [] (rest.dropWhile pyIsSpace)
    else
      splitSentencesAux fuel (c :: acc) rest

/-- Model of `re.split(r'[.!?]\s+', text)` from `RiskAnalyzer.analyze`. -/
def pySplitSentences (s : List Char) : List (List Char) :=
  splitSentencesAux s.length [] s

/-!  MD5, used by `RiskAnalyzer.analyze` through `hashlib.md5` for risk ids. -/

/-- UTF-8 encoding of one code point, as `str.encode` produces. -/
def utf8Char (n : Nat) : List Nat :=
  if n < 128 then [n]
  else if n < 2048 then [192 + n / 64, 128 + n % 64]
  else if n < 65536 then [224 + n / 4096, 128 + (n / 64) % 64, 128 + n % 64]
  else [240 + n / 262144, 128 + (n / 4096) % 64, 128 + (n / 64) % 64, 128 + n % 64]

/-- UTF-8 encoding of a string, as a byte list. -/
def utf8Encode (l : List Char) : List Nat := l.flatMap (fun c => utf8Char c.toNat)

/-- MD5 round constants, the standard sine-derived table. -/
def md5K : List Nat := [
  3614090360, 3905402710, 606105819, 3250441966, 4118548399, 1200080426, 2821735955, 4249261313,
  1770035416, 2336552879, 4294925233, 2304563134, 1804603682, 4254626195, 2792965006, 1236535329,
  4129170786, 3225465664, 643717713, 3921069994, 3593408605, 38016083, 3634488961, 3889429448,
  568446438, 3275163606, 4107603335, 1163531501, 2850285829, 4243563512, 1735328473, 2368359562,
  4294588738, 2272392833, 1839030562, 4259657740, 2763975236, 1272893353, 4139469664, 3200236656,
  681279174, 3936430074, 3572445317, 76029189, 3654602809, 3873151461, 530742520, 3299628645,
  4096336452, 1126891415, 2878612391, 4237533241, 1700485571, 2399980690, 4293915773, 2240044497,
  1873313359, 4264355552, 2734768916, 1309151649, 4149444226, 3174756917, 718787259, 3951481745]

/-- MD5 per-round left-rotation amounts. -/
def md5S : List Nat := [
  7, 12, 17, 22, 7, 12, 17, 22, 7, 12, 17, 22, 7, 12, 17, 22,
  5, 9, 14, 20, 5, 9, 14, 20, 5, 9, 14, 20, 5, 9, 14, 20,
  4, 11, 16, 23, 4, 11, 16, 23, 4, 11, 16, 23, 4, 11, 16, 23,
  6, 10, 15, 21, 6, 10, 15, 21, 6, 10, 15, 21, 6, 10, 15, 21]

/-- Rotate a 32-bit word left by `n`. -/
def rotl32 (x n : Nat) : Nat := ((x <<< n) % 4294967296) ||| (x >>> (32 - n))

/-- MD5 nonlinear round function, selected by round index. -/
def md5F (i b c d : Nat) : Nat :=
  if i < 16 then (b &&& c) ||| ((4294967295 ^^^ b) &&& d)
  else if i < 32 then (d &&& b) ||| ((4294967295 ^^^ d) &&& c)
  else if i < 48 then b ^^^ c ^^^ d
  else c ^^^ (b ||| (4294967295 ^^^ d))

/-- MD5 message-word index schedule. -/
def md5G (i : Nat) : Nat :=
  if i < 16 then i
  else if i < 32 then (5 * i + 1) % 16
  else if i < 48 then (3 * i + 5) % 16
  else (7 * i) % 16

/-- Read the `j`-th little-endian 32-bit word of a 64-byte block. -/
def md5Word (block : List Nat) (j : Nat) : Nat :=
  block.getD (4 * j) 0 + 256 * block.getD (4 * j + 1) 0 +
    65536 * block.getD (4 * j + 2) 0 + 16777216 * block.getD (4 * j + 3) 0

/-- One MD5 round on the running state. -/
def md5Step (block : List Nat) (st : Nat × Nat × Nat × Nat) (i : Nat) :
    Nat × Nat × Nat × Nat :=
  let a := st.1
  let b := st.2.1
  let c := st.2.2.1
  let d := st.2.2.2
  let f := (md5F i b c d + a + md5K.getD i 0 + md5Word block (md5G i)) % 4294967296
  (d, (b + rotl32 f (md5S.getD i 0)) % 4294967296, b, c)

/-- Process one 64-byte block: 64 rounds, then add the state back in. -/
def md5Block (st : Nat × Nat × Nat × Nat) (block : List Nat) :
    Nat × Nat × Nat × Nat :=
  let r := (List.range 64).foldl (md5Step block) st
  ((st.1 + r.1) % 4294967296, (st.2.1 + r.2.1) % 4294967296,
   (st.2.2.1 + r.2.2.1) % 4294967296, (st.2.2.2 + r.2.2.2) % 4294967296)

/-- Little-endian 64-bit encoding of the message bit length. -/
def md5LenBytes (len : Nat) : List Nat :=
  (List.range 8).map (fun i => ((8 * len) >>> (8 * i)) % 256)

/-- MD5 padding: a `0x80` byte, zeros to 56 mod 64, then the bit length. -/
def md5Pad (msg : List Nat) : List Nat :=
  msg ++ [128] ++ List.replicate ((119 - msg.length % 64) % 64) 0 ++ md5LenBytes msg.length

/-- Split a byte list into 64-byte blocks; `fuel` bounds the recursion. -/
def chunks64 : Nat → List Nat → List (List Nat)
  | 0, _ => []
  | _, [] => []
  | fuel + 1, l => List.take 64 l :: chunks64 fuel (List.drop 64 l)

/-- MD5 digest of a byte list, as 16 bytes. -/
def md5Digest (msg : List Nat) : List Nat :=
  let padded := md5Pad msg
  let r := (chunks64 padded.length padded).foldl md5Block
    (1732584193, 4023233417, 2562383102, 271733878)
  [r.1, r.2.1, r.2.2.1, r.2.2.2].flatMap
    (fun w => (List.range 4).map (fun i => (w >>> (8 * i)) % 256))

/-- Lowercase hexadecimal digit. -/
def hexDigit (n : Nat) : Char :=
  if n < 10 then Char.ofNat (48 + n) else Char.ofNat (87 + n)

/-- Model of `hashlib.md5(bytes).hexdigest()`. -/
def md5hex (msg : List Nat) : List Char :=
  (md5Digest msg).flatMap (fun b => [hexDigit (b / 16), hexDigit (b % 16)])

/-- Risk id of `RiskAnalyzer.analyze`: the first 12 hex characters of the MD5
digest of `"{name}:{context}"` encoded as UTF-8. -/
def fingerprint (name clause : List Char) : List Char :=
  List.take 12 (md5hex (utf8Encode (name ++ ':' :: clause)))


/-!  The pattern catalog and detector of `risk_analyzer.py`. -/

/-- One entry of `RISK_PATTERNS`: name, compiled pattern (alternation of
`.*`-separated literal segments), severity and explanation.  Pattern literals
are stored lowercased, which together with the lowercased subject text models
the `re.IGNORECASE` flag used by the source. -/
structure RiskPattern where
  name : List Char
  pattern : List (List (List Char))
  severity : List Char
  explanation : List Char

/-- The 22-entry catalog `RISK_PATTERNS` of `risk_analyzer.py`, transcribed
pattern by pattern. -/
def RISK_PATTERNS : List RiskPattern := [
  ⟨chars "Unlimited Liability",
   [[chars "unlimited liability"], [chars "without limitation"], [chars "no limit on damages"],
    [chars "liable for all"], [chars "full liability"]],
   chars "high",
   chars "This clause may expose you to unlimited financial liability without any cap on damages."⟩,
  ⟨chars "Automatic Renewal",
   [[chars "automatically renew"], [chars "auto-renew"], [chars "automatic extension"],
    [chars "renew automatically"]],
   chars "medium",
   chars "The contract may automatically renew without your explicit consent, potentially locking you into unwanted terms."⟩,
  ⟨chars "Arbitration Clause",
   [[chars "binding arbitration"], [chars "arbitration agreement"],
    [chars "resolve", chars "arbitration"], [chars "submit to arbitration"]],
   chars "medium",
   chars "This clause requires disputes to be resolved through arbitration rather than court, which may limit your legal options."⟩,
  ⟨chars "Waiver of Rights",
   [[chars "waive", chars "rights"], [chars "waiver of"], [chars "give up", chars "rights"],
    [chars "surrender", chars "rights"], [chars "forfeit", chars "rights"]],
   chars "high",
   chars "You may be waiving important legal rights, which could limit your ability to seek remedies."⟩,
  ⟨chars "Indemnification",
   [[chars "shall indemnify"], [chars "agree to indemnify"],
    [chars "indemnify", chars "hold harmless"], [chars "defend", chars "indemnify"]],
   chars "high",
   chars "You may be required to compensate the other party for losses, even those not caused by you."⟩,
  ⟨chars "Non-Compete Clause",
   [[chars "non-compete"], [chars "non compete"], [chars "shall not compete"],
    [chars "refrain from competing"], [chars "prohibited from competing"]],
   chars "high",
   chars "This restricts your ability to work in similar fields or industries after termination."⟩,
  ⟨chars "Confidentiality Obligations",
   [[chars "confidential information"], [chars "maintain confidentiality"],
    [chars "non-disclosure"], [chars "nda"], [chars "trade secrets"]],
   chars "medium",
   chars "You may have ongoing obligations to protect confidential information, even after contract termination."⟩,
  ⟨chars "Termination Penalties",
   [[chars "early termination", chars "fee"], [chars "penalty", chars "termination"],
    [chars "liquidated damages"], [chars "termination", chars "penalty"]],
   chars "high",
   chars "Ending the contract early may result in significant financial penalties."⟩,
  ⟨chars "Intellectual Property Transfer",
   [[chars "transfer", chars "intellectual property"], [chars "assign", chars "ip"],
    [chars "all rights", chars "belong"], [chars "ownership", chars "work product"]],
   chars "high",
   chars "You may be transferring ownership of intellectual property or creative work without retaining any rights."⟩,
  ⟨chars "Unilateral Modification",
   [[chars "modify", chars "at", chars "discretion"], [chars "change", chars "without notice"],
    [chars "reserve", chars "right", chars "modify"], [chars "unilaterally", chars "change"]],
   chars "high",
   chars "The other party can change the terms without your consent or notification."⟩,
  ⟨chars "Broad Disclaimers",
   [[chars "as is"], [chars "without warranty"], [chars "no warranties"],
    [chars "disclaim", chars "warranties"], [chars "all warranties", chars "disclaimed"]],
   chars "medium",
   chars "The provider disclaims warranties, meaning you may have no recourse if the product or service is defective."⟩,
  ⟨chars "Limitation of Liability",
   [[chars "limit", chars "liability"], [chars "liability", chars "limited"],
    [chars "not liable for"], [chars "no liability"], [chars "exclude", chars "liability"]],
   chars "medium",
   chars "The other party limits their liability, potentially capping damages you can recover."⟩,
  ⟨chars "Assignment Rights",
   [[chars "may assign"], [chars "right to assign"], [chars "transfer", chars "agreement"],
    [chars "assign", chars "rights"], [chars "assignment of"]],
   chars "medium",
   chars "The contract may be transferred to another party without your consent."⟩,
  ⟨chars "Governing Law",
   [[chars "governed by", chars "laws"], [chars "jurisdiction", chars "shall be"],
    [chars "exclusive jurisdiction"], [chars "venue", chars "shall be"]],
   chars "low",
   chars "Disputes must be resolved under specific laws or in specific jurisdictions, which may be inconvenient."⟩,
  ⟨chars "Entire Agreement",
   [[chars "entire agreement"], [chars "complete agreement"],
    [chars "supersedes", chars "agreements"], [chars "prior", chars "agreements", chars "void"]],
   chars "low",
   chars "This clause voids all previous agreements or understandings not included in this document."⟩,
  ⟨chars "Force Majeure",
   [[chars "force majeure"], [chars "act of god"], [chars "beyond", chars "control"],
    [chars "unforeseen circumstances"]],
   chars "low",
   chars "The contract may be suspended or terminated due to events beyond either party\x27s control."⟩,
  ⟨chars "Payment Terms",
   [[chars "payment", chars "due"], [chars "non-refundable"], [chars "no refund"],
    [chars "refund", chars "not", chars "available"], [chars "all sales final"]],
   chars "medium",
   chars "Payment terms may be restrictive, with limited or no refund options."⟩,
  ⟨chars "Data Collection",
   [[chars "collect", chars "data"], [chars "personal information"], [chars "user data"],
    [chars "tracking"], [chars "cookies"], [chars "analytics"]],
   chars "medium",
   chars "Your personal data may be collected, stored, or shared with third parties."⟩,
  ⟨chars "Class Action Waiver",
   [[chars "waive", chars "class action"], [chars "no class action"],
    [chars "class action", chars "waived"], [chars "individual basis only"]],
   chars "high",
   chars "You cannot join a class action lawsuit and must pursue claims individually."⟩,
  ⟨chars "Severability",
   [[chars "severability"], [chars "severable"], [chars "invalid", chars "provision"],
    [chars "unenforceable", chars "provision"]],
   chars "low",
   chars "If part of the contract is invalid, the rest remains in effect."⟩,
  ⟨chars "Notice Requirements",
   [[chars "written notice"], [chars "notice", chars "required"], [chars "provide", chars "notice"],
    [chars "notify", chars "in writing"]],
   chars "low",
   chars "Specific notice procedures must be followed, which could affect your ability to exercise rights."⟩,
  ⟨chars "Survival Clauses",
   [[chars "survive", chars "termination"], [chars "survive expiration"],
    [chars "obligations", chars "continue"], [chars "remain in effect"]],
   chars "medium",
   chars "Certain obligations continue even after the contract ends."⟩]

/-- One detected risk, the dictionary built in `RiskAnalyzer.analyze`.  The
`suggested_rewrite` key is absent until the orchestrator merges rewrites in,
modelled by an `Option` that the detector leaves at `none`. -/
structure Risk where
  id : List Char
  clause : List Char
  risk_type : List Char
  severity : List Char
  explanation : List Char
  original_text : List Char
  start_position : Nat
  end_position : Nat
  suggested_rewrite : Option (List Char) := none
deriving DecidableEq, Repr

/-- The severity ranking dictionary of `RiskAnalyzer.analyze`.  The source
looks severities up in `{"high": 0, "medium": 1, "low": 2}`; every severity in
the catalog is one of the three keys, so totalising the lookup is harmless. -/
def severity_order (s : List Char) : Nat :=
  if s = chars "high" then 0 else if s = chars "medium" then 1 else 2

/-- Context selection of `RiskAnalyzer.analyze` for the match span `m`: the
stripped 100-character-radius window around the match (truncating saturates at
the text bounds exactly as `max(0, ...)`/`min(len, ...)` do), overridden by
the first sentence unit whose lowercasing contains the matched substring. -/
def mkContext (text text_lower : List Char) (sentences : List (List Char))
    (m : Nat × Nat) : List Char :=
  match sentences.find? (fun sent =>
      containsSub (List.take (m.2 - m.1) (List.drop m.1 text_lower)) (pyLower sent)) with
  | some sent => pyStrip sent
  | none =>
    pyStrip (List.take (min text.length (m.2 + 100) - (m.1 - 100))
      (List.drop (m.1 - 100) text))

/-- The risk dictionary built by `RiskAnalyzer.analyze` for one match span. -/
def mkRisk (text text_lower : List Char) (sentences : List (List Char))
    (p : RiskPattern) (m : Nat × Nat) : Risk :=
  { id := fingerprint p.name (mkContext text text_lower sentences m)
    clause := mkContext text text_lower sentences m
    risk_type := p.name
    severity := p.severity
    explanation := p.explanation
    original_text := List.take (m.2 - m.1) (List.drop m.1 text_lower)
    start_position := m.1
    end_position := m.2 }

/-- All matches of all catalog patterns against the lowercased text, in
pattern-table order and match-position order, each already converted to a
`Risk` with its context window, preferred sentence context and fingerprint id.
This is the loop body of `RiskAnalyzer.analyze` before deduplication. -/
def rawRisks (text : List Char) : List Risk :=
  RISK_PATTERNS.flatMap (fun p =>
    (finditer p.pattern (pyLower text)).map
      (mkRisk text (pyLower text) (pySplitSentences text) p))

/-- Deduplication loop of `RiskAnalyzer.analyze`: a match is appended only if
no already collected risk carries the same id; `seen` is the set of collected
ids, which in the source is exactly the ids of the risks collected so far. -/
def dedupAux (seen : List (List Char)) : List Risk → List Risk
  | [] => []
  | r :: rs =>
    if r.id ∈ seen then dedupAux seen rs
    else r :: dedupAux (r.id :: seen) rs

/-- Keep the first risk for each id, in detection order. -/
def dedupById (l : List Risk) : List Risk := dedupAux [] l

/-- The detection-order result of `RiskAnalyzer.analyze` before the final
severity sort: pattern-table order, then match-position order, deduplicated. -/
def detectionOrder (text : List Char) : List Risk :=
  dedupById (rawRisks text)

/-- Ordering used by the final `risks.sort(key=...)`: compare severity ranks. -/
def rankLE (a b : Risk) : Prop :=
  severity_order a.severity ≤ severity_order b.severity

instance : DecidableRel rankLE := fun _ _ => Nat.decLe _ _

instance : IsTotal Risk rankLE := ⟨fun _ _ => Nat.le_total _ _⟩

instance : IsTrans Risk rankLE := ⟨fun _ _ _ => Nat.le_trans⟩

/-- Model of `RiskAnalyzer.analyze`: collect matches, deduplicate by id, then
stable-sort by severity rank (`list.sort` in Python is a stable sort; insertion
sort realises the same function). -/
def analyze (text : List Char) : List Risk :=
  List.insertionSort rankLE (detectionOrder text)


/-!  The rewrite engine of `rewrite_engine.py`. -/

/-- The external generative collaborator: a function from prompt to response
that may fail (`Except.error` models a raised exception inside the call). -/
abbrev Collab : Type := List Char → Except (List Char) (List Char)

/-- Worker for the marker split of `_parse_rewrites`: a marker is the literal
`REWRITE `, one or more digits, then a colon, as matched by the source pattern;
the split removes each marker occurrence, scanning left to right. -/
def splitRewritesAux : Nat → List Char → List Char → List (List Char)
  | _, acc, [] => [acc.reverse]
  | 0, acc, rest => [acc.reverse ++ rest]
  | fuel + 1, acc, c :: rest =>
    let s := c :: rest
    let ds := List.takeWhile Char.isDigit (List.drop 8 s)
    if (chars "REWRITE ").isPrefixOf s && !ds.isEmpty &&
        ((List.drop (8 + ds.length) s).headD ' ' == ':') then
      acc.reverse :: splitRewritesAux fuel [] (List.drop (8 + ds.length + 1) s)
    else
      splitRewritesAux fuel (c :: acc) rest

/-- Model of `re.split(r'REWRITE \d+:', response_text)`. -/
def splitRewrites (s : List Char) : List (List Char) :=
  splitRewritesAux s.length [] s

/-- The fixed placeholder appended by `_parse_rewrites` for missing entries. -/
def placeholderRewrite : List Char :=
  chars "Unable to generate rewrite for this clause."

/-- The rewrites recovered from the response blob before padding: the trimmed
non-empty segments after each marker (the preamble before the first marker is
dropped), or the whole trimmed blob as a single rewrite when no marker matched
and the blob is non-empty.  This is the state of the `rewrites` variable of
`_parse_rewrites` just before its padding loop. -/
def recoveredRewrites (response_text : List Char) : List (List Char) :=
  let parts := splitRewrites response_text
  let kept := ((parts.drop 1).map pyStrip).filter (fun r => !r.isEmpty)
  if kept.isEmpty && !(pyStrip response_text).isEmpty then [pyStrip response_text]
  else kept

/-- Model of `RewriteEngine._parse_rewrites`: recover segments, pad with the
placeholder up to `expected_count`, truncate beyond it. -/
def parse_rewrites (response_text : List Char) (expected_count : Nat) : List (List Char) :=
  let rewrites := recoveredRewrites response_text
  List.take expected_count
    (rewrites ++ List.replicate (expected_count - rewrites.length) placeholderRewrite)

/-- Model of `RewriteEngine._build_rewrite_prompt`. -/
def build_rewrite_prompt (clauses : List (List Char)) : List Char :=
  chars "You are a legal expert helping to rewrite contract clauses to be more balanced and fair to both parties. Provide clear, concise alternatives that protect both sides.\n\nPlease rewrite the following contract clauses to be more balanced and fair. For each clause, provide a safer alternative that protects both parties.\n\n" ++
  (clauses.mapIdx (fun i clause =>
    chars "CLAUSE " ++ chars (toString (i + 1)) ++ chars ":\n" ++ clause ++ chars "\n\n")).flatten ++
  chars "Provide rewrites in this format:\nREWRITE 1: [your rewrite]\nREWRITE 2: [your rewrite]\netc."

/-- Model of `RewriteEngine.rewrite_clauses`: `none` result stands for the
Python `None` (unconfigured model, or an exception caught by the broad
`except`); the empty clause list short-circuits before any collaborator call. -/
def rewrite_clauses (model : Option Collab) (clauses : List (List Char)) :
    Option (List (List Char)) :=
  match model with
  | none => none
  | some gen =>
    if clauses.isEmpty then some []
    else
      match gen (build_rewrite_prompt clauses) with
      | Except.ok response => some (parse_rewrites response clauses.length)
      | Except.error _ => none

/-!  The summary engine of `summary_engine.py`. -/

/-- Advisory returned by `generate_summary` when no API key is configured. -/
def apiKeyAdvisory : List Char :=
  chars "⚠️ Gemini API key not configured. Summary generation requires GEMINI_API_KEY environment variable."

/-- Advisory returned by `generate_summary` for short input. -/
def tooShortAdvisory : List Char :=
  chars "Document is too short to summarize."

/-- Model of the summary prompt string built around the 8000-character preview. -/
def summaryPrompt (preview : List Char) : List Char :=
  chars "You are a legal document analyst. Provide a clear, concise summary of this legal document focusing on:\n            - Key terms and obligations\n            - Parties involved\n            - Document\x27s purpose and main clauses\n            - Important dates or conditions\n            \n            Keep the summary under 200 words and make it easy to understand.\n            \n            Legal Document:\n            " ++
  preview ++ chars "\n            \n            Summary:"

/-- Model of `SummaryEngine.generate_summary`: the unconfigured check comes
first, then the short-text check on the trimmed length, then the collaborator
call whose failure is converted to an embedded error string. -/
def generate_summary (model : Option Collab) (text : List Char) : List Char :=
  match model with
  | none => apiKeyAdvisory
  | some gen =>
    if text.isEmpty || (pyStrip text).length < 50 then tooShortAdvisory
    else
      match gen (summaryPrompt (List.take 8000 text)) with
      | Except.ok response => pyStrip response
      | Except.error e => chars "Unable to generate summary: " ++ e

/-!  The orchestration of `analyze_text` in `main.py`. -/

/-- The merge loop of `analyze_text`: risk `i` receives rewrite `i` while
rewrites remain; risks beyond the rewrite list are left untouched. -/
def attachRewrites : List Risk → List (List Char) → List Risk
  | [], _ => []
  | r :: rs, [] => r :: rs
  | r :: rs, w :: ws => { r with suggested_rewrite := some w } :: attachRewrites rs ws

/-- The guard and merge of `analyze_text`: `if rewrites:` is Python truthiness,
so both `None` and an empty list leave the risks untouched. -/
def mergeRewrites (risks : List Risk) (rewrites : Option (List (List Char))) : List Risk :=
  match rewrites with
  | none => risks
  | some rs => if rs.isEmpty then risks else attachRewrites risks rs

/-- The response record assembled by `analyze_text`.  The database-assigned
`analysis_id` is not modelled; the computed summary and rewrites are persisted
to the `Analysis` row, which the `stored_rewrites` field stands for. -/
structure AnalysisResponse where
  document_name : List Char
  text_length : Nat
  risks_found : Nat
  risks : List Risk
  original_text : List Char
  stored_summary : List Char
  stored_rewrites : Option (List (List Char))
deriving Repr

/-- Model of the `analyze_text` endpoint body (persistence aside): detect,
summarize, request one batched rewrite call when risks exist, merge by index,
assemble the response. -/
def analyze_text_core (summaryModel rewriteModel : Option Collab)
    (text : List Char) : AnalysisResponse :=
  let risks := analyze text
  let summary := generate_summary summaryModel text
  let rewrites :=
    if risks.isEmpty then none
    else rewrite_clauses rewriteModel (risks.map (fun r => r.clause))
  let risks2 := mergeRewrites risks rewrites
  { document_name := chars "Text Input"
    text_length := text.length
    risks_found := risks2.length
    risks := risks2
    original_text := text
    stored_summary := summary
    stored_rewrites := rewrites }


/-!  Catalog well-formedness, used by the offset soundness lemmas. -/

/-- A branch is well formed when it opens with a non-empty literal whose first
character is not whitespace; every branch in the catalog is of this shape. -/
def goodBranch : List (List Char) → Bool
  | [] => false
  | seg :: _ =>
    match seg with
    | [] => false
    | c :: _ => !pyIsSpace c

/-- All branches of a pattern are well formed. -/
def goodPat (pat : List (List (List Char))) : Bool := pat.all goodBranch

/-- All patterns of the catalog are well formed. -/
def catalogGood : Bool := RISK_PATTERNS.all (fun p => goodPat p.pattern)

/-!  Concrete inputs used by the concrete parts of the claims. -/

/-- The input text fixed by the specification for arbitration and waiver detection. -/
def c1text : List Char :=
  chars "This agreement provides for binding arbitration and the parties waive any right to a jury trial."

/-- A text in which one clause matches two distinct risk categories. -/
def c2text : List Char := chars "the parties waive class action rights."

/-- A text in which one pattern matches twice inside the same sentence, so the
second match repeats the fingerprint of the first. -/
def c2dupText : List Char :=
  chars "You agree to binding arbitration and more binding arbitration here."

/-- A response blob carrying only two of three expected rewrite markers. -/
def c3blob : List Char :=
  chars "Intro text\nREWRITE 1: Use fair terms.\nREWRITE 2: Add mutual consent."

/-- A text opening with U+0130, whose lowercasing is one code point longer
than the text itself, so every later match offset is shifted by one. -/
def c9text : List Char := chars "İ binding arbitration"

/-- A trivial risk value used to instantiate theorems at concrete inputs. -/
def defaultRisk : Risk :=
  { id := [], clause := [], risk_type := [], severity := [], explanation := [],
    original_text := [], start_position := 0, end_position := 0 }

/-!  Whitespace and strip lemmas. -/

theorem dropWhile_idem (p : Char → Bool) (l : List Char) :
    List.dropWhile p (List.dropWhile p l) = List.dropWhile p l := by
  induction l with
  | nil => rfl
  | cons c rest ih =>
    by_cases h : p c
    · simp [List.dropWhile_cons, h, ih]
    · simp [List.dropWhile_cons, h]

theorem pyIsSpace_toLower {c : Char} (h : pyIsSpace c = true) : c.toLower = c := by
  simp only [pyIsSpace, Bool.or_eq_true, beq_iff_eq] at h
  rcases h with ((((h | h) | h) | h) | h) | h <;> subst h <;> decide

theorem toLower_not_space {c d : Char} (h : c.toLower = d) (hd : pyIsSpace d = false) :
    pyIsSpace c = false := by
  by_contra hc
  have hc' : pyIsSpace c = true := by
    cases hcc : pyIsSpace c with
    | true => rfl
    | false => exact absurd hcc hc
  rw [pyIsSpace_toLower hc'] at h
  rw [h] at hc'
  rw [hc'] at hd
  exact Bool.noConfusion hd

theorem pyStripR_cons {c : Char} (hc : pyIsSpace c = false) (l : List Char) :
    pyStripR (c :: l) = c :: pyStripR l := by
  unfold pyStripR
  rw [List.reverse_cons, List.dropWhile_append]
  by_cases h : (List.dropWhile pyIsSpace l.reverse).isEmpty
  · simp only [h, if_true]
    simp [List.dropWhile_cons, hc, List.isEmpty_iff.mp h]
  · simp only [h, if_false]
    simp

theorem pyStripR_idem (l : List Char) : pyStripR (pyStripR l) = pyStripR l := by
  unfold pyStripR
  rw [List.reverse_reverse, dropWhile_idem]

theorem dropWhile_head_not {p : Char → Bool} {l m : List Char} {c : Char}
    (h : List.dropWhile p l = c :: m) : p c = false := by
  induction l with
  | nil => simp at h
  | cons a rest ih =>
    rw [List.dropWhile_cons] at h
    by_cases ha : p a
    · rw [if_pos ha] at h
      exact ih h
    · rw [if_neg ha] at h
      cases h
      cases hpc : p c with
      | false => rfl
      | true => exact absurd hpc ha

theorem pyStrip_idem (l : List Char) : pyStrip (pyStrip l) = pyStrip l := by
  unfold pyStrip
  cases hd : List.dropWhile pyIsSpace l with
  | nil =>
    simp [pyStripR]
  | cons c m =>
    have hc : pyIsSpace c = false := dropWhile_head_not hd
    rw [pyStripR_cons hc]
    rw [List.dropWhile_cons, hc, if_neg (by simp)]
    rw [pyStripR_cons hc, pyStripR_idem]

theorem mem_dropWhile_of_not {p : Char → Bool} {l : List Char} {x : Char}
    (hx : x ∈ l) (hpx : p x = false) : x ∈ List.dropWhile p l := by
  have := List.takeWhile_append_dropWhile p l
  rw [← this] at hx
  rcases List.mem_append.mp hx with h | h
  · have : p x = true := List.mem_takeWhile_imp h
    rw [this] at hpx
    exact absurd hpx (by simp)
  · exact h

theorem pyStripR_ne_nil {l : List Char} {x : Char} (hx : x ∈ l)
    (hpx : pyIsSpace x = false) : pyStripR l ≠ [] := by
  unfold pyStripR
  intro h
  have h2 : List.dropWhile pyIsSpace l.reverse = [] := by
    have := congrArg List.reverse h
    rwa [List.reverse_reverse, List.reverse_nil] at this
  have hx' : x ∈ List.dropWhile pyIsSpace l.reverse :=
    mem_dropWhile_of_not (List.mem_reverse.mpr hx) hpx
  rw [h2] at hx'
  exact List.not_mem_nil x hx'

theorem pyStrip_ne_nil {l : List Char} {x : Char} (hx : x ∈ l)
    (hpx : pyIsSpace x = false) : pyStrip l ≠ [] := by
  unfold pyStrip
  exact pyStripR_ne_nil (mem_dropWhile_of_not hx hpx) hpx

/-!  Lemmas about the rewrite parser. -/

theorem mem_recoveredRewrites {blob s : List Char} (h : s ∈ recoveredRewrites blob) :
    pyStrip s = s ∧ s ≠ [] := by
  simp only [recoveredRewrites] at h
  split at h
  · rcases List.mem_singleton.mp h with rfl
    rename_i hguard
    rw [Bool.and_eq_true] at hguard
    refine ⟨pyStrip_idem blob, ?_⟩
    intro hnil
    rw [hnil] at hguard
    simp at hguard
  · rw [List.mem_filter] at h
    obtain ⟨hmem, hne⟩ := h
    rcases List.mem_map.mp hmem with ⟨part, _, rfl⟩
    refine ⟨pyStrip_idem part, ?_⟩
    intro hnil
    rw [hnil] at hne
    simp at hne

theorem mem_parse_rewrites {blob s : List Char} {n : Nat}
    (h : s ∈ parse_rewrites blob n) :
    s ∈ recoveredRewrites blob ∨ s = placeholderRewrite := by
  unfold parse_rewrites at h
  have h2 := (List.take_sublist _ _).subset h
  rcases List.mem_append.mp h2 with h3 | h3
  · exact Or.inl h3
  · exact Or.inr (List.eq_of_mem_replicate h3)

theorem parse_rewrites_length (blob : List Char) (n : Nat) :
    (parse_rewrites blob n).length = n := by
  unfold parse_rewrites
  simp only [List.length_take, List.length_append, List.length_replicate]
  omega

/-- C3: `_parse_rewrites` is total and returns exactly the requested number of
trimmed entries: segments after markers are trimmed and kept when non-empty,
a marker-free non-empty blob becomes the first entry, missing entries are
padded with the fixed placeholder, surplus entries are truncated, and a blob
with two of three markers yields three entries ending in the placeholder. -/
theorem C3_parse_rewrites :
    (∀ (blob : List Char) (n : Nat), (parse_rewrites blob n).length = n) ∧
    (∀ (blob : List Char) (n : Nat) (s : List Char),
      s ∈ parse_rewrites blob n → pyStrip s = s) ∧
    (∀ (blob : List Char) (n : Nat), (splitRewrites blob).length = 1 →
      pyStrip blob ≠ [] → 1 ≤ n →
      (parse_rewrites blob n)[0]? = some (pyStrip blob)) ∧
    (∀ (blob : List Char) (n i : Nat), (recoveredRewrites blob).length ≤ i → i < n →
      (parse_rewrites blob n)[i]? = some placeholderRewrite) ∧
    parse_rewrites c3blob 3 =
      [chars "Use fair terms.", chars "Add mutual consent.", placeholderRewrite] := by
  refine ⟨parse_rewrites_length, ?_, ?_, ?_, by decide⟩
  · intro blob n s h
    rcases mem_parse_rewrites h with h | rfl
    · exact (mem_recoveredRewrites h).1
    · decide
  · intro blob n hlen hne hn
    have hdrop : (splitRewrites blob).drop 1 = [] := by
      rw [List.drop_eq_nil_iff]
      omega
    have hrec : recoveredRewrites blob = [pyStrip blob] := by
      simp only [recoveredRewrites]
      rw [hdrop]
      simp only [List.map_nil, List.filter_nil, List.isEmpty_nil, Bool.true_and]
      rw [if_pos]
      simp [List.isEmpty_iff, hne]
    unfold parse_rewrites
    rw [hrec]
    rw [List.getElem?_take]
    rw [if_pos (show 0 < n by omega)]
    simp
  · intro blob n i hrec hn
    unfold parse_rewrites
    rw [List.getElem?_take, if_pos hn, List.getElem?_append_right hrec,
      List.getElem?_replicate]
    rw [if_pos (by omega)]

/-- Witness for C3 at concrete inputs: a marker-free blob is returned whole as
the first entry and padded with the placeholder. -/
theorem C3_parse_rewrites_witness :
    (parse_rewrites (chars "no markers here") 2)[0]? = some (chars "no markers here") ∧
    (parse_rewrites (chars "no markers here") 2)[1]? = some placeholderRewrite :=
  ⟨by
    have := C3_parse_rewrites.2.2.1 (chars "no markers here") 2 (by decide) (by decide)
      (by decide)
    simpa using this,
   C3_parse_rewrites.2.2.2.1 (chars "no markers here") 2 1 (by decide) (by decide)⟩

/-!  Lemmas about the merge step of the orchestrator. -/

theorem attachRewrites_mem :
    ∀ (risks : List Risk) (rs : List (List Char)) (r : Risk),
      r ∈ attachRewrites risks rs →
      r ∈ risks ∨ ∃ r0 ∈ risks, ∃ w ∈ rs,
        r = { r0 with suggested_rewrite := some w } := by
  intro risks
  induction risks with
  | nil => intro rs r h; simp [attachRewrites] at h
  | cons a rest ih =>
    intro rs r h
    cases rs with
    | nil => exact Or.inl h
    | cons w ws =>
      rcases List.mem_cons.mp h with h | h
      · exact Or.inr ⟨a, List.mem_cons_self a rest, w, List.mem_cons_self w ws, h⟩
      · rcases ih ws r h with h2 | ⟨r0, hr0, w', hw', rfl⟩
        · exact Or.inl (List.mem_cons_of_mem a h2)
        · exact Or.inr ⟨r0, List.mem_cons_of_mem a hr0, w',
            List.mem_cons_of_mem w hw', rfl⟩

theorem attachRewrites_length :
    ∀ (risks : List Risk) (rs : List (List Char)),
      (attachRewrites risks rs).length = risks.length := by
  intro risks
  induction risks with
  | nil => intro rs; rfl
  | cons a rest ih =>
    intro rs
    cases rs with
    | nil => rfl
    | cons w ws => simp [attachRewrites, ih ws]

theorem attachRewrites_getElem_lt :
    ∀ (risks : List Risk) (rs : List (List Char)) (i : Nat) (r : Risk) (w : List Char),
      risks[i]? = some r → rs[i]? = some w →
      (attachRewrites risks rs)[i]? = some { r with suggested_rewrite := some w } := by
  intro risks
  induction risks with
  | nil => intro rs i r w h; simp at h
  | cons a rest ih =>
    intro rs i r w hr hw
    cases rs with
    | nil => simp at hw
    | cons v ws =>
      cases i with
      | zero =>
        simp only [List.getElem?_cons_zero, Option.some_inj] at hr hw
        subst hr; subst hw
        simp [attachRewrites]
      | succ j =>
        simp only [List.getElem?_cons_succ] at hr hw
        simpa [attachRewrites] using ih ws j r w hr hw

theorem attachRewrites_getElem_ge :
    ∀ (risks : List Risk) (rs : List (List Char)) (i : Nat) (r : Risk),
      risks[i]? = some r → rs.length ≤ i →
      (attachRewrites risks rs)[i]? = some r := by
  intro risks
  induction risks with
  | nil => intro rs i r h; simp at h
  | cons a rest ih =>
    intro rs i r hr hlen
    cases rs with
    | nil => simpa [attachRewrites] using hr
    | cons v ws =>
      cases i with
      | zero => simp at hlen
      | succ j =>
        simp only [List.getElem?_cons_succ] at hr
        have : ws.length ≤ j := by simpa using hlen
        simpa [attachRewrites] using ih ws j r hr this

/-- C8: merging a rewrite list into a non-empty risk list attaches rewrite `i`
to risk `i` for every index below the rewrite count, leaves every later risk
entirely unchanged, changes no other field of any risk, and preserves the
number (and hence order) of risks. -/
theorem C8_merge :
    ∀ (risks : List Risk) (rs : List (List Char)), risks ≠ [] →
      (mergeRewrites risks (some rs)).length = risks.length ∧
      (∀ (i : Nat) (r : Risk) (w : List Char), risks[i]? = some r → rs[i]? = some w →
        (mergeRewrites risks (some rs))[i]? =
          some { r with suggested_rewrite := some w }) ∧
      (∀ (i : Nat) (r : Risk), risks[i]? = some r → rs.length ≤ i →
        (mergeRewrites risks (some rs))[i]? = some r) := by
  intro risks rs _
  simp only [mergeRewrites]
  by_cases h : rs.isEmpty
  · rw [if_pos h]
    have hrs : rs = [] := List.isEmpty_iff.mp h
    subst hrs
    refine ⟨rfl, ?_, ?_⟩
    · intro i r w _ hw
      simp at hw
    · intro i r hr _
      exact hr
  · rw [if_neg h]
    exact ⟨attachRewrites_length risks rs,
      fun i r w hr hw => attachRewrites_getElem_lt risks rs i r w hr hw,
      fun i r hr hlen => attachRewrites_getElem_ge risks rs i r hr hlen⟩

/-- Witness for C8 at a concrete merge. -/
theorem C8_merge_witness :
    (mergeRewrites [defaultRisk] (some [chars "w"]))[0]? =
      some { defaultRisk with suggested_rewrite := some (chars "w") } :=
  (C8_merge [defaultRisk] [chars "w"] (by decide)).2.1 0 defaultRisk (chars "w")
    (by decide) (by decide)

/-- C10: every parsed rewrite is non-empty (empty trimmed segments are dropped
and the padding placeholder is non-empty), and therefore every rewrite the
orchestrator attaches to a detector-produced risk is non-empty. -/
theorem C10_rewrites_nonempty :
    (∀ (blob : List Char) (n : Nat) (s : List Char),
      s ∈ parse_rewrites blob n → s ≠ []) ∧
    (∀ (blob : List Char) (n : Nat) (risks : List Risk) (r : Risk) (w : List Char),
      (∀ r0 ∈ risks, r0.suggested_rewrite = none) →
      r ∈ mergeRewrites risks (some (parse_rewrites blob n)) →
      r.suggested_rewrite = some w → w ≠ []) := by
  have h1 : ∀ (blob : List Char) (n : Nat) (s : List Char),
      s ∈ parse_rewrites blob n → s ≠ [] := by
    intro blob n s h
    rcases mem_parse_rewrites h with h | rfl
    · exact (mem_recoveredRewrites h).2
    · decide
  refine ⟨h1, ?_⟩
  intro blob n risks r w hnone hmem hsr
  simp only [mergeRewrites] at hmem
  split at hmem
  · rw [hnone r hmem] at hsr
    exact Option.noConfusion hsr
  · rcases attachRewrites_mem risks _ r hmem with h | ⟨r0, _, w', hw', rfl⟩
    · rw [hnone r h] at hsr
      exact Option.noConfusion hsr
    · simp only [Option.some_inj] at hsr
      exact hsr ▸ h1 blob n w' hw'

/-- Witness for C10 at a concrete parse and merge. -/
theorem C10_witness :
    chars "hello" ≠ [] :=
  C10_rewrites_nonempty.2 (chars "REWRITE 1: hello") 1 [defaultRisk]
    { defaultRisk with suggested_rewrite := some (chars "hello") } (chars "hello")
    (by decide) (by decide) rfl

/-!  Summary engine and rewrite engine configuration behaviour. -/

/-- Counterexample for C4: on an unconfigured engine, a short input does not
produce the short-text advisory; the configuration check precedes the length
check, so the missing-key advisory is returned instead. -/
theorem C4_counterexample :
    (pyStrip (chars "Short text.")).length < 50 ∧
    generate_summary none (chars "Short text.") ≠ tooShortAdvisory := by
  constructor
  · decide
  · intro h
    exact absurd (congrArg List.length h) (by decide)

/-- C4 as amended: on a configured engine, every input whose trimmed length is
below 50 characters yields the fixed short-text advisory, for every possible
collaborator, so the collaborator is never consulted. -/
theorem C4_amended (gen : Collab) (text : List Char)
    (h : (pyStrip text).length < 50) :
    generate_summary (some gen) text = tooShortAdvisory := by
  simp [generate_summary, h]

/-- Witness for C4 as amended, with an explicit collaborator that would return
a summary if it were consulted. -/
theorem C4_amended_witness :
    generate_summary (some (fun _ => Except.ok (chars "SUMMARY"))) (chars "tiny") =
      tooShortAdvisory :=
  C4_amended (fun _ => Except.ok (chars "SUMMARY")) (chars "tiny") (by decide)

/-- Counterexample for C5: with the generation collaborator unconfigured, the
empty clause list is answered with the unavailable value `None`, not with an
empty sequence, because the configuration check precedes the empty check. -/
theorem C5_counterexample : rewrite_clauses none [] ≠ some [] := by
  intro h
  exact Option.noConfusion h

/-- C5 as amended: with a configured collaborator, the empty clause list is
answered with the empty sequence, identically for every collaborator (so none
is invoked); with no collaborator configured the unavailable value is returned. -/
theorem C5_amended :
    (∀ gen : Collab, rewrite_clauses (some gen) [] = some []) ∧
    rewrite_clauses none [] = none :=
  ⟨fun _ => rfl, rfl⟩

/-!  Membership transport from `analyze` back to the raw match list. -/

theorem dedupAux_subset :
    ∀ (l : List Risk) (seen : List (List Char)) (r : Risk),
      r ∈ dedupAux seen l → r ∈ l := by
  intro l
  induction l with
  | nil => intro seen r h; simp [dedupAux] at h
  | cons a rest ih =>
    intro seen r h
    unfold dedupAux at h
    by_cases ha : a.id ∈ seen
    · rw [if_pos ha] at h
      exact List.mem_cons_of_mem a (ih seen r h)
    · rw [if_neg ha] at h
      rcases List.mem_cons.mp h with h | h
      · exact h ▸ List.mem_cons_self a rest
      · exact List.mem_cons_of_mem a (ih _ r h)

theorem mem_analyze_imp_raw {t : List Char} {r : Risk} (h : r ∈ analyze t) :
    r ∈ rawRisks t := by
  unfold analyze at h
  have h2 : r ∈ detectionOrder t :=
    (List.perm_insertionSort rankLE (detectionOrder t)).mem_iff.mp h
  exact dedupAux_subset _ _ _ h2

theorem rawRisks_fields {t : List Char} {r : Risk} (h : r ∈ rawRisks t) :
    r.suggested_rewrite = none ∧ r.id = fingerprint r.risk_type r.clause := by
  simp only [rawRisks, List.mem_flatMap, List.mem_map] at h
  obtain ⟨p, hp, m, hm, rfl⟩ := h
  exact ⟨rfl, rfl⟩

theorem analyze_suggested_none {t : List Char} {r : Risk} (h : r ∈ analyze t) :
    r.suggested_rewrite = none :=
  (rawRisks_fields (mem_analyze_imp_raw h)).1

/-- C7: `rewrite_clauses` never raises: an unconfigured collaborator yields the
unavailable value, a collaborator exception is caught and converted to the
unavailable value, and in both situations the orchestrator still assembles a
response whose risks are exactly the detected risks with no rewrite attached. -/
theorem C7_rewrites_never_raise :
    (∀ clauses : List (List Char), rewrite_clauses none clauses = none) ∧
    (∀ (gen : Collab) (clauses : List (List Char)) (e : List Char), clauses ≠ [] →
      gen (build_rewrite_prompt clauses) = Except.error e →
      rewrite_clauses (some gen) clauses = none) ∧
    (∀ (sm : Option Collab) (t : List Char),
      (analyze_text_core sm none t).risks = analyze t ∧
      ∀ r ∈ (analyze_text_core sm none t).risks, r.suggested_rewrite = none) ∧
    (∀ (sm : Option Collab) (gen : Collab) (t : List Char) (e : List Char),
      gen (build_rewrite_prompt ((analyze t).map (fun r => r.clause))) = Except.error e →
      (analyze_text_core sm (some gen) t).risks = analyze t ∧
      ∀ r ∈ (analyze_text_core sm (some gen) t).risks, r.suggested_rewrite = none) := by
  have hunconf : ∀ clauses : List (List Char), rewrite_clauses none clauses = none :=
    fun _ => rfl
  have hexc : ∀ (gen : Collab) (clauses : List (List Char)) (e : List Char),
      clauses ≠ [] → gen (build_rewrite_prompt clauses) = Except.error e →
      rewrite_clauses (some gen) clauses = none := by
    intro gen clauses e hne hgen
    simp only [rewrite_clauses]
    rw [if_neg (by simp [List.isEmpty_iff, hne])]
    rw [hgen]
  refine ⟨hunconf, hexc, ?_, ?_⟩
  · intro sm t
    have hrw : (if (analyze t).isEmpty then none
        else rewrite_clauses none ((analyze t).map (fun r => r.clause))) =
        (none : Option (List (List Char))) := by
      by_cases h : (analyze t).isEmpty <;> simp [h, hunconf]
    constructor
    · simp only [analyze_text_core, hrw, mergeRewrites]
    · intro r hr
      simp only [analyze_text_core, hrw, mergeRewrites] at hr
      exact analyze_suggested_none hr
  · intro sm gen t e hgen
    have hrw : (if (analyze t).isEmpty then none
        else rewrite_clauses (some gen) ((analyze t).map (fun r => r.clause))) =
        (none : Option (List (List Char))) := by
      by_cases h : (analyze t).isEmpty
      · simp [h]
      · rw [if_neg (by simp [h])]
        refine hexc gen _ e ?_ hgen
        intro hmap
        rw [List.map_eq_nil_iff] at hmap
        rw [hmap] at h
        simp at h
    constructor
    · simp only [analyze_text_core, hrw, mergeRewrites]
    · intro r hr
      simp only [analyze_text_core, hrw, mergeRewrites] at hr
      exact analyze_suggested_none hr

/-- Witness for C7: a collaborator that always raises is converted to the
unavailable value, and the orchestrator still reports the detected risks. -/
theorem C7_witness :
    rewrite_clauses (some (fun _ => Except.error (chars "boom"))) [chars "c"] = none ∧
    (analyze_text_core none (some (fun _ => Except.error (chars "boom"))) c1text).risks =
      analyze c1text :=
  ⟨C7_rewrites_never_raise.2.1 (fun _ => Except.error (chars "boom")) [chars "c"]
      (chars "boom") (by simp) rfl,
   (C7_rewrites_never_raise.2.2.2 none (fun _ => Except.error (chars "boom")) c1text
      (chars "boom") rfl).1⟩

/-!  The fixed specification input for risk detection. -/

set_option maxRecDepth 10000 in
/-- Counterexample for C1: on the fixed input the detector does find an
Arbitration Clause risk of severity medium, but it finds no Waiver of Rights
risk at all — the input says "waive any right" in the singular while the
waiver pattern requires the literal "rights" after "waive" — so the claimed
conjunction fails on the code. -/
theorem C1_counterexample :
    ¬ ((∃ r ∈ analyze c1text,
          r.risk_type = chars "Arbitration Clause" ∧ r.severity = chars "medium") ∧
       (∃ r ∈ analyze c1text,
          r.risk_type = chars "Waiver of Rights" ∧ r.severity = chars "high")) := by
  decide

set_option maxRecDepth 10000 in
/-- C1 as amended: on the fixed input the risk list contains an entry with
risk type Arbitration Clause and severity medium, and contains no entry with
risk type Waiver of Rights (none of the waiver alternatives matches the
singular "right" of the input). -/
theorem C1_amended :
    (∃ r ∈ analyze c1text,
      r.risk_type = chars "Arbitration Clause" ∧ r.severity = chars "medium") ∧
    (∀ r ∈ analyze c1text, r.risk_type ≠ chars "Waiver of Rights") := by
  decide

/-!  Uniqueness of risk ids. -/

theorem dedupAux_id_not_mem :
    ∀ (l : List Risk) (seen : List (List Char)) (r : Risk),
      r ∈ dedupAux seen l → r.id ∉ seen := by
  intro l
  induction l with
  | nil => intro seen r h; simp [dedupAux] at h
  | cons a rest ih =>
    intro seen r h
    unfold dedupAux at h
    by_cases ha : a.id ∈ seen
    · rw [if_pos ha] at h
      exact ih seen r h
    · rw [if_neg ha] at h
      rcases List.mem_cons.mp h with rfl | h
      · exact ha
      · intro hr
        exact (ih _ r h) (List.mem_cons_of_mem _ hr)

theorem dedupAux_id_nodup :
    ∀ (l : List Risk) (seen : List (List Char)),
      ((dedupAux seen l).map (fun r => r.id)).Nodup := by
  intro l
  induction l with
  | nil => intro seen; simp [dedupAux]
  | cons a rest ih =>
    intro seen
    unfold dedupAux
    by_cases ha : a.id ∈ seen
    · rw [if_pos ha]
      exact ih seen
    · rw [if_neg ha]
      simp only [List.map_cons, List.nodup_cons]
      refine ⟨?_, ih _⟩
      intro hmem
      rcases List.mem_map.mp hmem with ⟨x, hx, hxid⟩
      exact (dedupAux_id_not_mem rest (a.id :: seen) x hx)
        (by rw [hxid]; exact List.mem_cons_self _ _)

theorem analyze_id_nodup (t : List Char) :
    ((analyze t).map (fun r => r.id)).Nodup := by
  unfold analyze detectionOrder dedupById
  exact ((List.perm_insertionSort rankLE _).map (fun r => r.id)).nodup_iff.mpr
    (dedupAux_id_nodup _ [])

set_option maxRecDepth 10000 in
/-- C2: for every input the risk list carries pairwise distinct ids, each id is
the 12-hex-character MD5 fingerprint of the pair of risk type and clause text;
a repeated fingerprint is discarded (on a text whose sentence matches the same
pattern twice, two raw matches collapse to one entry), while one clause
matched under two distinct risk types is retained twice with distinct ids. -/
theorem C2_identity :
    (∀ t : List Char, ((analyze t).map (fun r => r.id)).Nodup) ∧
    (∀ t : List Char, ∀ r ∈ analyze t, r.id = fingerprint r.risk_type r.clause) ∧
    (∃ r1 ∈ analyze c2text, ∃ r2 ∈ analyze c2text,
      r1.clause = r2.clause ∧ r1.risk_type ≠ r2.risk_type ∧ r1.id ≠ r2.id) ∧
    ((rawRisks c2dupText).filter
        (fun r => r.risk_type == chars "Arbitration Clause")).length = 2 ∧
    ((analyze c2dupText).filter
        (fun r => r.risk_type == chars "Arbitration Clause")).length = 1 := by
  refine ⟨analyze_id_nodup, ?_, by decide, by decide, by decide⟩
  intro t r h
  exact (rawRisks_fields (mem_analyze_imp_raw h)).2

set_option maxRecDepth 10000 in
/-- Witness for C2: the first detected risk of a concrete text has the
fingerprint of its type and clause as id. -/
theorem C2_identity_witness :
    ((analyze c2text).getD 0 defaultRisk).id =
      fingerprint ((analyze c2text).getD 0 defaultRisk).risk_type
        ((analyze c2text).getD 0 defaultRisk).clause :=
  C2_identity.2.1 c2text ((analyze c2text).getD 0 defaultRisk) (by decide)

/-!  Stability and sortedness of the final severity sort. -/

theorem orderedInsert_filter_rank (x : Risk) (k : Nat) :
    ∀ l : List Risk,
      (List.orderedInsert rankLE x l).filter
          (fun r => severity_order r.severity == k) =
      if severity_order x.severity = k
      then x :: l.filter (fun r => severity_order r.severity == k)
      else l.filter (fun r => severity_order r.severity == k) := by
  intro l
  induction l with
  | nil =>
    by_cases h : severity_order x.severity = k <;>
      simp [List.orderedInsert, List.filter_cons, h]
  | cons y ys ih =>
    simp only [List.orderedInsert]
    by_cases hxy : rankLE x y
    · rw [if_pos hxy]
      by_cases hx : severity_order x.severity = k <;>
        simp [List.filter_cons, hx]
    · rw [if_neg hxy]
      have hlt : severity_order y.severity < severity_order x.severity := by
        unfold rankLE at hxy
        omega
      by_cases hx : severity_order x.severity = k
      · have hy : ¬ severity_order y.severity = k := by omega
        simp [List.filter_cons, hy, ih, hx]
      · by_cases hy : severity_order y.severity = k <;>
          simp [List.filter_cons, hy, ih, hx]

theorem insertionSort_filter_rank (k : Nat) :
    ∀ l : List Risk,
      (List.insertionSort rankLE l).filter
          (fun r => severity_order r.severity == k) =
      l.filter (fun r => severity_order r.severity == k) := by
  intro l
  induction l with
  | nil => rfl
  | cons x xs ih =>
    simp only [List.insertionSort]
    rw [orderedInsert_filter_rank]
    by_cases hx : severity_order x.severity = k
    · rw [if_pos hx, ih, List.filter_cons, if_pos (by simp [hx])]
    · rw [if_neg hx, ih, List.filter_cons, if_neg (by simp [hx])]

/-- C6: for every input the risk list is sorted by severity rank (high before
medium before low) by a stable sort: for each severity rank, the subsequence
of that rank equals the corresponding subsequence of the detection-order list,
which is built in pattern-table order and match-position order. -/
theorem C6_sorted :
    ∀ t : List Char,
      List.Sorted rankLE (analyze t) ∧
      ∀ k : Nat,
        (analyze t).filter (fun r => severity_order r.severity == k) =
        (detectionOrder t).filter (fun r => severity_order r.severity == k) := by
  intro t
  exact ⟨List.sorted_insertionSort rankLE _, fun k => insertionSort_filter_rank k _⟩

/-!  Soundness of the match engine: bounds and first-character facts. -/

theorem catalogGood_true : catalogGood = true := by decide

theorem tryWidths_bound (seg : List Char) (cont : List Char → Option Nat)
    (hcont : ∀ u m, cont u = some m → m ≤ u.length) (s : List Char) :
    ∀ k n, k ≤ s.length → tryWidths seg cont s k = some n → n ≤ s.length := by
  intro k
  induction k with
  | zero =>
    intro n _ h
    simp only [tryWidths] at h
    by_cases hpre : seg.isPrefixOf s
    · rw [if_pos hpre] at h
      have hlen : seg.length ≤ s.length :=
        (List.isPrefixOf_iff_prefix.mp hpre).length_le
      cases hc : cont (List.drop seg.length s) with
      | none => rw [hc] at h; exact Option.noConfusion h
      | some m =>
        rw [hc] at h
        have hm := hcont _ m hc
        rw [List.length_drop] at hm
        have hn : seg.length + m = n := Option.some_inj.mp h
        omega
    · rw [if_neg hpre] at h
      exact Option.noConfusion h
  | succ j ih =>
    intro n hk h
    simp only [tryWidths] at h
    by_cases hpre : seg.isPrefixOf (List.drop (j + 1) s)
    · rw [if_pos hpre] at h
      have hlen : seg.length ≤ s.length - (j + 1) := by
        have := (List.isPrefixOf_iff_prefix.mp hpre).length_le
        rwa [List.length_drop] at this
      cases hc : cont (List.drop (j + 1 + seg.length) s) with
      | none =>
        rw [hc] at h
        exact ih n (by omega) h
      | some m =>
        rw [hc] at h
        have hm := hcont _ m hc
        rw [List.length_drop] at hm
        have hn : j + 1 + seg.length + m = n := Option.some_inj.mp h
        omega
    · rw [if_neg hpre] at h
      exact ih n (by omega) h

theorem matchDS_bound : ∀ (segs : List (List Char)) (s : List Char) (n : Nat),
    matchDS segs s = some n → n ≤ s.length := by
  intro segs
  induction segs with
  | nil =>
    intro s n h
    simp only [matchDS] at h
    obtain rfl := Option.some_inj.mp h
    exact Nat.zero_le _
  | cons seg rest ih =>
    intro s n h
    simp only [matchDS] at h
    exact tryWidths_bound seg (matchDS rest) (fun u m hm => ih u m hm) s _ n
      ((List.takeWhile_sublist _).length_le) h

theorem matchBranchAt_bound : ∀ (br : List (List Char)) (s : List Char) (n : Nat),
    matchBranchAt br s = some n → n ≤ s.length := by
  intro br s n h
  cases br with
  | nil =>
    simp only [matchBranchAt] at h
    obtain rfl := Option.some_inj.mp h
    exact Nat.zero_le _
  | cons seg rest =>
    simp only [matchBranchAt] at h
    by_cases hpre : seg.isPrefixOf s
    · rw [if_pos hpre] at h
      have hlen : seg.length ≤ s.length :=
        (List.isPrefixOf_iff_prefix.mp hpre).length_le
      cases hc : matchDS rest (List.drop seg.length s) with
      | none => rw [hc] at h; exact Option.noConfusion h
      | some m =>
        rw [hc] at h
        have hm := matchDS_bound _ _ _ hc
        rw [List.length_drop] at hm
        obtain rfl := Option.some_inj.mp h
        omega
    · rw [if_neg hpre] at h
      exact Option.noConfusion h

theorem matchPatAt_bound : ∀ (pat : List (List (List Char))) (s : List Char) (n : Nat),
    matchPatAt pat s = some n → n ≤ s.length := by
  intro pat
  induction pat with
  | nil => intro s n h; simp [matchPatAt] at h
  | cons br brs ih =>
    intro s n h
    simp only [matchPatAt] at h
    cases hb : matchBranchAt br s with
    | some m =>
      rw [hb] at h
      obtain rfl := Option.some_inj.mp h
      exact matchBranchAt_bound _ _ _ hb
    | none =>
      rw [hb] at h
      exact ih s n h

theorem matchBranchAt_head {br : List (List Char)} {s : List Char} {n : Nat}
    (hgood : goodBranch br = true) (h : matchBranchAt br s = some n) :
    ∃ c s2, s = c :: s2 ∧ pyIsSpace c = false ∧ 1 ≤ n := by
  cases br with
  | nil => simp [goodBranch] at hgood
  | cons seg rest =>
    cases seg with
    | nil => simp [goodBranch] at hgood
    | cons c cs =>
      simp only [goodBranch] at hgood
      simp only [matchBranchAt] at h
      by_cases hpre : (c :: cs).isPrefixOf s
      · rw [if_pos hpre] at h
        obtain ⟨tl2, htl⟩ := List.isPrefixOf_iff_prefix.mp hpre
        cases hc : matchDS rest (List.drop (c :: cs).length s) with
        | none => rw [hc] at h; exact Option.noConfusion h
        | some m =>
          rw [hc] at h
          obtain rfl := Option.some_inj.mp h
          refine ⟨c, cs ++ tl2, ?_, by simpa using hgood, ?_⟩
          · rw [← htl]
            rfl
          · simp only [List.length_cons]
            omega
      · rw [if_neg hpre] at h
        exact Option.noConfusion h

theorem matchPatAt_head : ∀ (pat : List (List (List Char))) (s : List Char) (n : Nat),
    goodPat pat = true → matchPatAt pat s = some n →
    ∃ c s2, s = c :: s2 ∧ pyIsSpace c = false ∧ 1 ≤ n := by
  intro pat
  induction pat with
  | nil => intro s n _ h; simp [matchPatAt] at h
  | cons br brs ih =>
    intro s n hgood h
    rw [goodPat, List.all_cons, Bool.and_eq_true] at hgood
    simp only [matchPatAt] at h
    cases hb : matchBranchAt br s with
    | some m =>
      rw [hb] at h
      obtain rfl := Option.some_inj.mp h
      exact matchBranchAt_head hgood.1 hb
    | none =>
      rw [hb] at h
      exact ih s n hgood.2 h

theorem finditerFrom_sound (pat : List (List (List Char))) (tl : List Char) :
    ∀ (fuel i s e : Nat), (s, e) ∈ finditerFrom pat tl fuel i →
      s < e ∧ e ≤ tl.length ∧ matchPatAt pat (List.drop s tl) = some (e - s) := by
  intro fuel
  induction fuel with
  | zero => intro i s e h; simp [finditerFrom] at h
  | succ f ih =>
    intro i s e h
    simp only [finditerFrom] at h
    by_cases hi : i < tl.length
    · rw [if_pos hi] at h
      cases hm : matchPatAt pat (List.drop i tl) with
      | some n =>
        rw [hm] at h
        dsimp only at h
        by_cases hn : n = 0
        · rw [if_pos hn] at h
          exact ih (i + 1) s e h
        · rw [if_neg hn] at h
          rcases List.mem_cons.mp h with heq | h2
          · rw [Prod.mk.injEq] at heq
            obtain ⟨rfl, rfl⟩ := heq
            have hbound := matchPatAt_bound _ _ _ hm
            rw [List.length_drop] at hbound
            refine ⟨by omega, by omega, ?_⟩
            rw [show s + n - s = n by omega]
            exact hm
          · exact ih (i + n) s e h2
      | none =>
        rw [hm] at h
        dsimp only at h
        exact ih (i + 1) s e h
    · rw [if_neg hi] at h
      simp at h

/-!  Context facts: the chosen clause is non-empty and trimmed. -/

theorem containsSub_infix : ∀ (a b : List Char), containsSub a b = true →
    ∃ pre suf, b = pre ++ a ++ suf := by
  intro a b
  induction b with
  | nil =>
    intro h
    simp only [containsSub] at h
    rw [List.isEmpty_iff] at h
    exact ⟨[], [], by simp [h]⟩
  | cons c rest ih =>
    intro h
    simp only [containsSub, Bool.or_eq_true] at h
    rcases h with h | h
    · obtain ⟨t2, ht⟩ := List.isPrefixOf_iff_prefix.mp h
      exact ⟨[], t2, by simp [← ht]⟩
    · obtain ⟨pre, suf, rfl⟩ := ih h
      exact ⟨c :: pre, suf, by simp⟩

theorem mkContext_cases (text text_lower : List Char)
    (sentences : List (List Char)) (m : Nat × Nat) :
    (∃ sent ∈ sentences,
      containsSub (List.take (m.2 - m.1) (List.drop m.1 text_lower)) (pyLower sent) = true ∧
      mkContext text text_lower sentences m = pyStrip sent) ∨
    mkContext text text_lower sentences m =
      pyStrip (List.take (min text.length (m.2 + 100) - (m.1 - 100))
        (List.drop (m.1 - 100) text)) := by
  cases hfind : sentences.find? (fun sent =>
      containsSub (List.take (m.2 - m.1) (List.drop m.1 text_lower)) (pyLower sent)) with
  | some sent =>
    left
    have hps := @List.find?_some _ _ _ _ hfind
    exact ⟨sent, List.mem_of_find?_eq_some hfind, by simpa using hps,
      by simp [mkContext, hfind]⟩
  | none =>
    right
    simp [mkContext, hfind]

set_option maxRecDepth 10000 in
/-- C9, demonstrated as a code bug at a concrete input: the detector computes
match offsets in the lowercased text, and on a text opening with U+0130 the
lowercased text is longer than the original, so the reported span (3, 22)
overruns the 21-character input and the slice of the original text at the
reported offsets does not lowercase to the matched substring — the risk is
detected, but its offsets do not delimit the matched substring in the
original text, contrary to the output guarantee of the specification. -/
theorem C9_code_bug :
    ∃ r ∈ analyze c9text,
      r.risk_type = chars "Arbitration Clause" ∧
      c9text.length < r.end_position ∧
      pyLower (List.take (r.end_position - r.start_position)
        (List.drop r.start_position c9text)) ≠ r.original_text := by
  decide
